import Mathlib

/-!
Shallow embedding of `src/retrieval_graph/crawler.py` (class `WebCrawler`).

Pure string manipulation from the Python standard library that the crawler
relies on (`urldefrag`, `urlparse(...).netloc`, `str.count`, `str.rstrip`,
`str.endswith`, `os.path.join`) is embedded concretely over `List Char`.
The browser-rendering collaborator (playwright) and the filesystem are
modelled as an explicit environment, and the `crawl` loop as a fuel-indexed
state-transition function.
-/

namespace RetrievalCrawler

/-- Python `s.count(c)` for a single-character needle. -/
def countChar (c : Char) (s : String) : Nat := s.data.count c

/-- Python `s.endswith(c)` for a single-character suffix. -/
def endsWithChar (c : Char) (s : String) : Bool := s.data.getLast? == some c

/-- Python `s.rstrip(c)`: drop all trailing occurrences of `c`. -/
def rstripChar (c : Char) (s : String) : String :=
  String.mk ((s.data.reverse.dropWhile (fun x => x == c)).reverse)

/-- Python `urllib.parse.urldefrag(url)[0]`: everything before the first `#`
(for a fragment-free URL the input is returned unchanged, which is the only
case the crawler's normalisation claims exercise). -/
def urldefrag (s : String) : String :=
  String.mk (s.data.takeWhile (fun x => !(x == '#')))

/-- `WebCrawler.normalize_url` (crawler.py lines 54-74): strip the fragment;
if the URL contains exactly two `/` and does not end in `/`, append one,
otherwise strip every trailing `/`. -/
def normalize_url (url : String) : String :=
  let url := urldefrag url
  if countChar '/' url = 2 ∧ endsWithChar '/' url = false then
    url ++ "/"
  else
    rstripChar '/' url

/-- Characters allowed inside a URL scheme after the leading letter,
per `urllib.parse`. -/
def schemeChar (c : Char) : Bool :=
  c.isAlpha || c.isDigit || c == '+' || c == '-' || c == '.'

/-- A non-empty scheme: a letter followed by scheme characters. -/
def validSchemeChars : List Char → Bool
  | [] => false
  | c :: cs => c.isAlpha && cs.all schemeChar

/-- Strip a leading `scheme:` from a URL when present (`urllib.parse`
recognises a scheme only when the text before the first `:` is a valid
scheme). -/
def dropScheme (url : String) : String :=
  let pre := url.data.takeWhile (fun c => !(c == ':'))
  if pre.length < url.data.length ∧ validSchemeChars pre = true then
    String.mk (url.data.drop (pre.length + 1))
  else url

/-- `urllib.parse.urlparse(url).netloc`: after the scheme, a netloc is
present exactly when the rest starts with `//`; it extends to the next
`/`, `?` or `#`. -/
def netloc (url : String) : String :=
  match (dropScheme url).data with
  | '/' :: '/' :: rest =>
      String.mk (rest.takeWhile (fun c => !(c == '/') && !(c == '?') && !(c == '#')))
  | _ => ""

/-- Python `s.endswith(suffix)`: plain string-suffix test. -/
def endswith (s suffix : String) : Bool := List.isSuffixOf suffix.data s.data

/-- `WebCrawler.is_allowed` (crawler.py lines 41-52): the URL's netloc must
end with at least one entry of `allowed_domains`. -/
def is_allowed (allowed_domains : List String) (url : String) : Bool :=
  allowed_domains.any (fun allowed => endswith (netloc url) allowed)

/-- `os.path.join(a, b)` for the two-argument form used by
`save_page_content`. -/
def joinPath (a b : String) : String :=
  match b.data with
  | '/' :: _ => b
  | _ => if a = "" ∨ endsWithChar '/' a = true then a ++ b else a ++ "/" ++ b

/-! ## Data model and environment -/

/-- One entry of `crawled_pages` (crawler.py lines 95-99). -/
structure PageRecord where
  url : String
  local_filepath : String
  size : Nat
deriving Repr, DecidableEq

/-- The href attribute of one anchor element, as observed by the link loop
(crawler.py lines 147-154): `got v` is `link.get_attribute("href")`
returning `v` (where `none` models Python `None`), and `getErr` models the
call raising (e.g. a detached element). -/
inductive LinkAttr where
  | got : Option String → LinkAttr
  | getErr : LinkAttr
deriving Repr, DecidableEq

/-- What the rendering backend produces for one successfully navigated URL:
the response status, the rendered HTML (`none` models `page.content()`
raising), and the anchor elements (`none` models
`page.locator("a[href]").element_handles()` raising). -/
structure PageSpec where
  status : Int
  content : Option String
  linksRes : Option (List LinkAttr)
deriving Repr, DecidableEq

/-- The crawler's external collaborators: the browser (`fetch`, where
`none` models `new_page`/`goto` raising, e.g. a navigation timeout), the
filesystem (`saveOk url = false` models the `open`/`write` in
`save_page_content` raising for that page), the uuid supply (`names k` is
the hex of the k-th `uuid.uuid4()` drawn), and `urllib.parse.urljoin`,
kept abstract since no claim constrains its value. -/
structure Env where
  fetch : String → Option PageSpec
  saveOk : String → Bool
  names : Nat → String
  joinUrl : String → String → String

/-- The constructor arguments of `WebCrawler` (crawler.py lines 21-34). -/
structure Config where
  starter_urls : List String
  hops : Nat
  allowed_domains : List String
  storage_folder : String

/-- The outcome of one fetch attempt (one `page.goto` call). -/
inductive Outcome where
  | navErr : Outcome
  | badStatus : Int → Outcome
  | success : Outcome
deriving Repr, DecidableEq

/-- Whether the attempt passed the status check (after which the URL is
marked visited). -/
def Outcome.isSuccess : Outcome → Bool
  | .success => true
  | _ => false

/-- One fetch attempt: the URL passed to `page.goto`, the depth of the
frontier entry, and the outcome. -/
structure Attempt where
  url : String
  depth : Nat
  outcome : Outcome
deriving Repr, DecidableEq

/-- The crawler's mutable state: `visited_urls` (newest first, modelling
the set), `crawled_pages`, the frontier `queue`, the number of uuids drawn
so far, and the trace of fetch attempts made so far. -/
structure CrawlState where
  visited_urls : List String
  crawled_pages : List PageRecord
  queue : List (String × Nat)
  nameCtr : Nat
  attempts : List Attempt
deriving Repr, DecidableEq

/-- `WebCrawler.save_page_content` (crawler.py lines 76-99): write the
content to a fresh uuid-named file under the storage folder and append a
metadata record whose `size` is Python `len(content)` (the number of
characters). `none` models the file write raising: no record is appended. -/
def save_page_content (env : Env) (cfg : Config) (s : CrawlState)
    (content url : String) : Option CrawlState :=
  if env.saveOk url then
    let file_name := env.names s.nameCtr ++ ".html"
    let file_path := joinPath cfg.storage_folder file_name
    some { s with
           crawled_pages := s.crawled_pages ++ [⟨url, file_path, content.length⟩],
           nameCtr := s.nameCtr + 1 }
  else none

/-- The link loop of `crawl` (crawler.py lines 147-154): walk the anchor
elements in order; a `get_attribute` error aborts the whole loop (the
exception propagates to the per-URL handler), a falsy href (Python `None`
or `""`) is skipped, and an href is resolved against the page URL,
normalized, and kept when it is allowed and not yet visited. -/
def collectLinks (env : Env) (domains : List String) (current_url : String)
    (visited : List String) (depth : Nat) : List LinkAttr → List (String × Nat)
  | [] => []
  | .getErr :: _ => []
  | .got none :: rest => collectLinks env domains current_url visited depth rest
  | .got (some href) :: rest =>
    if href = "" then collectLinks env domains current_url visited depth rest
    else
      let normalized_href := normalize_url (env.joinUrl current_url href)
      if is_allowed domains normalized_href = true ∧ normalized_href ∉ visited then
        (normalized_href, depth + 1) :: collectLinks env domains current_url visited depth rest
      else collectLinks env domains current_url visited depth rest

/-- Append one attempt to the trace. -/
def logAttempt (s : CrawlState) (url : String) (depth : Nat) (o : Outcome) : CrawlState :=
  { s with attempts := s.attempts ++ [⟨url, depth, o⟩] }

/-- The body of the `while` loop of `WebCrawler.crawl` (crawler.py lines
119-159) for one dequeued entry `(current_url, depth)`; `s.queue` is the
remaining frontier. Mirrors the source: skip if visited or too deep;
otherwise attempt the fetch (`none` = goto raised, caught at line 158);
on a bad status skip without marking visited; otherwise mark the
normalized URL visited, read the content (an error here is caught with the
URL already visited), save it (a `save_page_content` error is likewise
caught by the same handler, so no record and no links for that page),
then enqueue the collected links at `depth + 1`. -/
def processEntry (env : Env) (cfg : Config) (s : CrawlState)
    (current_url : String) (depth : Nat) : CrawlState :=
  let normalized_url := normalize_url current_url
  if normalized_url ∈ s.visited_urls ∨ depth > cfg.hops then s
  else
    match env.fetch current_url with
    | none => logAttempt s current_url depth .navErr
    | some response =>
      if response.status < 200 ∨ 400 ≤ response.status then
        logAttempt s current_url depth (.badStatus response.status)
      else
        let s1 := { logAttempt s current_url depth .success with
                    visited_urls := normalized_url :: s.visited_urls }
        match response.content with
        | none => s1
        | some content =>
          match save_page_content env cfg s1 content current_url with
          | none => s1
          | some s2 =>
            match response.linksRes with
            | none => s2
            | some attrs =>
              { s2 with queue := s2.queue ++
                  collectLinks env cfg.allowed_domains current_url s2.visited_urls depth attrs }

/-- The `while queue:` loop of `WebCrawler.crawl`, fuel-indexed: pop the
front entry and process it. The Python loop always terminates (every
enqueue comes from a fresh successfully visited page at bounded depth), so
every complete run is `crawlLoop` with sufficient fuel, recognisable by an
empty final queue. -/
def crawlLoop (env : Env) (cfg : Config) : Nat → CrawlState → CrawlState
  | 0, s => s
  | fuel + 1, s =>
    match s.queue with
    | [] => s
    | (current_url, depth) :: rest =>
      crawlLoop env cfg fuel (processEntry env cfg { s with queue := rest } current_url depth)

/-- The initial state of `WebCrawler.crawl` (crawler.py lines 35-36 and
117): empty visited set and page list, and the frontier seeded with the
normalized starter URLs at depth 0, in input order. -/
def initState (cfg : Config) : CrawlState :=
  { visited_urls := []
    crawled_pages := []
    queue := cfg.starter_urls.map (fun url => (normalize_url url, 0))
    nameCtr := 0
    attempts := [] }

/-- A whole crawl run with the given fuel. -/
def crawl (env : Env) (cfg : Config) (fuel : Nat) : CrawlState :=
  crawlLoop env cfg fuel (initState cfg)

/-! ## Concrete scenarios used by counterexamples and witnesses -/

/-- Starter URL whose save raises in the persistence-failure scenario. -/
def urlA : String := "http://a.example.com/p"

/-- Second starter URL in the persistence-failure scenario. -/
def urlB : String := "http://b.example.com/p"

/-- Both pages fetch fine with empty link lists, but the file write for
`urlA` raises. -/
def envPersistFail : Env :=
  { fetch := fun _ => some ⟨200, some "hello", some []⟩
    saveOk := fun u => !(u == urlA)
    names := fun k => "f" ++ Nat.repr k
    joinUrl := fun _ href => href }

/-- Two starters, zero hops, storage under "store". -/
def cfgAB : Config := ⟨[urlA, urlB], 0, ["example.com"], "store"⟩

/-- Starter URL of the retry scenario. -/
def urlR : String := "http://r.example.com/p"

/-- Every fetch of the retry scenario answers status 500. -/
def envRetry : Env :=
  { fetch := fun _ => some ⟨500, some "x", some []⟩
    saveOk := fun _ => true
    names := fun _ => "f"
    joinUrl := fun _ href => href }

/-- The same starter URL listed twice. -/
def cfgRetry : Config := ⟨[urlR, urlR], 1, ["example.com"], "store"⟩

/-- An out-of-scope starter URL. -/
def urlEvil : String := "http://evil.com/x"

/-- The out-of-scope page fetches fine. -/
def envEvil : Env :=
  { fetch := fun _ => some ⟨200, some "hi", some []⟩
    saveOk := fun _ => true
    names := fun _ => "f"
    joinUrl := fun _ href => href }

/-- One out-of-scope starter, allow-list `example.com` only. -/
def cfgEvil : Config := ⟨[urlEvil], 0, ["example.com"], "store"⟩

/-- Starter URL of the content-error scenario. -/
def urlC : String := "http://c.example.com/p"

/-- Navigation succeeds with status 200 but `page.content()` raises. -/
def envContentErr : Env :=
  { fetch := fun _ => some ⟨200, none, some []⟩
    saveOk := fun _ => true
    names := fun _ => "f"
    joinUrl := fun _ href => href }

/-- One starter, zero hops. -/
def cfgC : Config := ⟨[urlC], 0, ["example.com"], "store"⟩

/-- Starter URL of the extraction-error scenario. -/
def urlP : String := "http://p.example.com/p"

/-- The link found on the starter page before the extraction error. -/
def urlQ : String := "http://p.example.com/q"

/-- The starter page yields one good anchor and then a detached element;
the linked page times out on navigation. -/
def envExtract : Env :=
  { fetch := fun u =>
      if u == urlP then some ⟨200, some "x", some [.got (some urlQ), .getErr]⟩
      else none
    saveOk := fun _ => true
    names := fun _ => "f"
    joinUrl := fun _ href => href }

/-- One starter, one hop. -/
def cfgExtract : Config := ⟨[urlP], 1, ["example.com"], "store"⟩

/-- A minimal environment for exercising `save_page_content` directly. -/
def envStore : Env :=
  { fetch := fun _ => none
    saveOk := fun _ => true
    names := fun _ => "f"
    joinUrl := fun _ href => href }

/-- An empty job whose initial state feeds `save_page_content` directly. -/
def cfgStore : Config := ⟨[], 0, [], "store"⟩

/-! ## Characterisation of one loop iteration -/

/-- Everything `collectLinks` emits sits at `depth + 1`, passes the domain
filter, and was not in the visited set used for the check. -/
theorem collectLinks_mem (env : Env) (domains : List String) (current_url : String)
    (visited : List String) (depth : Nat) :
    ∀ attrs, ∀ e ∈ collectLinks env domains current_url visited depth attrs,
      e.2 = depth + 1 ∧ is_allowed domains e.1 = true ∧ e.1 ∉ visited := by
  intro attrs
  induction attrs with
  | nil => simp [collectLinks]
  | cons a rest ih =>
    cases a with
    | getErr => simp [collectLinks]
    | got h =>
      cases h with
      | none => simpa [collectLinks] using ih
      | some href =>
        by_cases h0 : href = ""
        · simpa [collectLinks, h0] using ih
        · simp only [collectLinks, h0, if_false]
          split
          · rename_i hcond
            intro e he
            rcases List.mem_cons.mp he with rfl | he'
            · exact ⟨rfl, hcond.1, hcond.2⟩
            · exact ih e he'
          · exact ih

/-- A `get_attribute` error aborts the link loop: only the anchors before
the first erroring one contribute frontier entries. -/
theorem collectLinks_stops_at_getErr (env : Env) (domains : List String)
    (current_url : String) (visited : List String) (depth : Nat) :
    ∀ pre post, LinkAttr.getErr ∉ pre →
      collectLinks env domains current_url visited depth (pre ++ LinkAttr.getErr :: post) =
        collectLinks env domains current_url visited depth pre := by
  intro pre
  induction pre with
  | nil => intro post _; simp [collectLinks]
  | cons a rest ih =>
    intro post hne
    have ha : a ≠ LinkAttr.getErr := fun h => hne (h ▸ List.mem_cons_self a rest)
    have hrest : LinkAttr.getErr ∉ rest := fun h => hne (List.mem_cons_of_mem a h)
    cases a with
    | getErr => exact absurd rfl ha
    | got h =>
      cases h with
      | none => simpa [collectLinks] using ih post hrest
      | some href =>
        by_cases h0 : href = ""
        · simpa [collectLinks, h0] using ih post hrest
        · simp only [List.cons_append, collectLinks, h0, if_false, List.append_eq]
          rw [ih post hrest]

/-- Skip case (crawler.py line 125): already visited or beyond the hop
limit, nothing happens. -/
theorem processEntry_eq_skip (env : Env) (cfg : Config) (s : CrawlState)
    (u : String) (d : Nat)
    (h : normalize_url u ∈ s.visited_urls ∨ d > cfg.hops) :
    processEntry env cfg s u d = s := by
  simp [processEntry, h]

/-- Navigation error (goto raises, caught at line 158): only the attempt
is recorded. -/
theorem processEntry_eq_navErr (env : Env) (cfg : Config) (s : CrawlState)
    (u : String) (d : Nat)
    (hnv : normalize_url u ∉ s.visited_urls) (hd : d ≤ cfg.hops)
    (hf : env.fetch u = none) :
    processEntry env cfg s u d =
      { s with attempts := s.attempts ++ [⟨u, d, Outcome.navErr⟩] } := by
  have hd' : ¬ d > cfg.hops := by omega
  simp [processEntry, hnv, hd', hf, logAttempt]

/-- Bad response status (line 135): skip without marking visited. -/
theorem processEntry_eq_badStatus (env : Env) (cfg : Config) (s : CrawlState)
    (u : String) (d : Nat) (resp : PageSpec)
    (hnv : normalize_url u ∉ s.visited_urls) (hd : d ≤ cfg.hops)
    (hf : env.fetch u = some resp)
    (hst : resp.status < 200 ∨ 400 ≤ resp.status) :
    processEntry env cfg s u d =
      { s with attempts := s.attempts ++ [⟨u, d, Outcome.badStatus resp.status⟩] } := by
  have hd' : ¬ d > cfg.hops := by omega
  simp [processEntry, hnv, hd', hf, hst, logAttempt]

/-- `page.content()` raises after the URL was already marked visited. -/
theorem processEntry_eq_noContent (env : Env) (cfg : Config) (s : CrawlState)
    (u : String) (d : Nat) (resp : PageSpec)
    (hnv : normalize_url u ∉ s.visited_urls) (hd : d ≤ cfg.hops)
    (hf : env.fetch u = some resp)
    (hst : ¬(resp.status < 200 ∨ 400 ≤ resp.status))
    (hc : resp.content = none) :
    processEntry env cfg s u d =
      { s with attempts := s.attempts ++ [⟨u, d, Outcome.success⟩],
               visited_urls := normalize_url u :: s.visited_urls } := by
  have hd' : ¬ d > cfg.hops := by omega
  simp [processEntry, hnv, hd', hf, hst, hc, logAttempt]

/-- The write inside `save_page_content` raises: the URL stays visited,
but no record is appended and no links are taken. -/
theorem processEntry_eq_saveFail (env : Env) (cfg : Config) (s : CrawlState)
    (u : String) (d : Nat) (resp : PageSpec) (c : String)
    (hnv : normalize_url u ∉ s.visited_urls) (hd : d ≤ cfg.hops)
    (hf : env.fetch u = some resp)
    (hst : ¬(resp.status < 200 ∨ 400 ≤ resp.status))
    (hc : resp.content = some c)
    (hs : env.saveOk u = false) :
    processEntry env cfg s u d =
      { s with attempts := s.attempts ++ [⟨u, d, Outcome.success⟩],
               visited_urls := normalize_url u :: s.visited_urls } := by
  have hd' : ¬ d > cfg.hops := by omega
  simp [processEntry, hnv, hd', hf, hst, hc, save_page_content, hs, logAttempt]

/-- Successful fetch and save, but `element_handles()` raises: the record
is kept, zero links are enqueued. -/
theorem processEntry_eq_savedNoLinks (env : Env) (cfg : Config) (s : CrawlState)
    (u : String) (d : Nat) (resp : PageSpec) (c : String)
    (hnv : normalize_url u ∉ s.visited_urls) (hd : d ≤ cfg.hops)
    (hf : env.fetch u = some resp)
    (hst : ¬(resp.status < 200 ∨ 400 ≤ resp.status))
    (hc : resp.content = some c)
    (hs : env.saveOk u = true)
    (hl : resp.linksRes = none) :
    processEntry env cfg s u d =
      { s with attempts := s.attempts ++ [⟨u, d, Outcome.success⟩],
               visited_urls := normalize_url u :: s.visited_urls,
               crawled_pages := s.crawled_pages ++
                 [⟨u, joinPath cfg.storage_folder (env.names s.nameCtr ++ ".html"), c.length⟩],
               nameCtr := s.nameCtr + 1 } := by
  have hd' : ¬ d > cfg.hops := by omega
  simp [processEntry, hnv, hd', hf, hst, hc, save_page_content, hs, hl, logAttempt]

/-- Fully successful iteration: record appended and the collected links
enqueued at `d + 1`, checked against the visited set that already contains
this page's normalized URL. -/
theorem processEntry_eq_savedLinks (env : Env) (cfg : Config) (s : CrawlState)
    (u : String) (d : Nat) (resp : PageSpec) (c : String) (attrs : List LinkAttr)
    (hnv : normalize_url u ∉ s.visited_urls) (hd : d ≤ cfg.hops)
    (hf : env.fetch u = some resp)
    (hst : ¬(resp.status < 200 ∨ 400 ≤ resp.status))
    (hc : resp.content = some c)
    (hs : env.saveOk u = true)
    (hl : resp.linksRes = some attrs) :
    processEntry env cfg s u d =
      { s with attempts := s.attempts ++ [⟨u, d, Outcome.success⟩],
               visited_urls := normalize_url u :: s.visited_urls,
               crawled_pages := s.crawled_pages ++
                 [⟨u, joinPath cfg.storage_folder (env.names s.nameCtr ++ ".html"), c.length⟩],
               nameCtr := s.nameCtr + 1,
               queue := s.queue ++
                 collectLinks env cfg.allowed_domains u
                   (normalize_url u :: s.visited_urls) d attrs } := by
  have hd' : ¬ d > cfg.hops := by omega
  simp [processEntry, hnv, hd', hf, hst, hc, save_page_content, hs, hl, logAttempt]

/-- Master case split for one loop iteration: either the entry is skipped
(already visited or too deep), or exactly one attempt is recorded, the URL
is marked visited exactly when the attempt passed the status check, at
most one record (for this URL) is appended, and every enqueued link sits
one hop deeper, passes the domain filter, and was unvisited. -/
theorem processEntry_spec (env : Env) (cfg : Config) (s : CrawlState)
    (u : String) (d : Nat) :
    (processEntry env cfg s u d = s ∧ (normalize_url u ∈ s.visited_urls ∨ d > cfg.hops)) ∨
    (normalize_url u ∉ s.visited_urls ∧ d ≤ cfg.hops ∧
      ∃ o : Outcome, ∃ links : List (String × Nat), ∃ pages : List PageRecord,
        (processEntry env cfg s u d).attempts = s.attempts ++ [⟨u, d, o⟩] ∧
        (processEntry env cfg s u d).visited_urls =
          (if o.isSuccess = true then normalize_url u :: s.visited_urls else s.visited_urls) ∧
        (processEntry env cfg s u d).queue = s.queue ++ links ∧
        (processEntry env cfg s u d).crawled_pages = s.crawled_pages ++ pages ∧
        (∀ e ∈ links, e.2 = d + 1 ∧ is_allowed cfg.allowed_domains e.1 = true ∧
          e.1 ≠ normalize_url u ∧ e.1 ∉ s.visited_urls) ∧
        (∀ r ∈ pages, r.url = u) ∧
        pages.length ≤ 1 ∧
        (o = Outcome.navErr ∨ (∃ st, o = Outcome.badStatus st) ∨ o = Outcome.success) ∧
        (o.isSuccess = false → links = [] ∧ pages = [])) := by
  by_cases hskip : normalize_url u ∈ s.visited_urls ∨ d > cfg.hops
  · exact Or.inl ⟨processEntry_eq_skip env cfg s u d hskip, hskip⟩
  · push_neg at hskip
    obtain ⟨hnv, hd'⟩ := hskip
    have hd : d ≤ cfg.hops := by omega
    refine Or.inr ⟨hnv, hd, ?_⟩
    cases hf : env.fetch u with
    | none =>
      refine ⟨Outcome.navErr, [], [], ?_⟩
      rw [processEntry_eq_navErr env cfg s u d hnv hd hf]
      simp [Outcome.isSuccess]
    | some resp =>
      by_cases hst : resp.status < 200 ∨ 400 ≤ resp.status
      · refine ⟨Outcome.badStatus resp.status, [], [], ?_⟩
        rw [processEntry_eq_badStatus env cfg s u d resp hnv hd hf hst]
        simp [Outcome.isSuccess]
      · cases hc : resp.content with
        | none =>
          refine ⟨Outcome.success, [], [], ?_⟩
          rw [processEntry_eq_noContent env cfg s u d resp hnv hd hf hst hc]
          simp [Outcome.isSuccess]
        | some c =>
          cases hs : env.saveOk u with
          | false =>
            refine ⟨Outcome.success, [], [], ?_⟩
            rw [processEntry_eq_saveFail env cfg s u d resp c hnv hd hf hst hc hs]
            simp [Outcome.isSuccess]
          | true =>
            cases hl : resp.linksRes with
            | none =>
              refine ⟨Outcome.success, [],
                [⟨u, joinPath cfg.storage_folder (env.names s.nameCtr ++ ".html"), c.length⟩], ?_⟩
              rw [processEntry_eq_savedNoLinks env cfg s u d resp c hnv hd hf hst hc hs hl]
              simp [Outcome.isSuccess]
            | some attrs =>
              refine ⟨Outcome.success,
                collectLinks env cfg.allowed_domains u (normalize_url u :: s.visited_urls) d attrs,
                [⟨u, joinPath cfg.storage_folder (env.names s.nameCtr ++ ".html"), c.length⟩], ?_⟩
              rw [processEntry_eq_savedLinks env cfg s u d resp c attrs hnv hd hf hst hc hs hl]
              refine ⟨by simp, by simp [Outcome.isSuccess], by simp, by simp, ?_, by simp,
                by simp, by simp, by simp [Outcome.isSuccess]⟩
              intro e he
              have h := collectLinks_mem env cfg.allowed_domains u
                (normalize_url u :: s.visited_urls) d attrs e he
              refine ⟨h.1, h.2.1, ?_, ?_⟩
              · intro hcontra
                exact h.2.2 (hcontra ▸ List.mem_cons_self _ _)
              · intro hcontra
                exact h.2.2 (List.mem_cons_of_mem _ hcontra)

/-- Every invariant preserved by one iteration is preserved by the whole
loop. -/
theorem crawlLoop_induct (env : Env) (cfg : Config) (Inv : CrawlState → Prop)
    (step : ∀ s u d rest, s.queue = (u, d) :: rest → Inv s →
      Inv (processEntry env cfg { s with queue := rest } u d)) :
    ∀ fuel s, Inv s → Inv (crawlLoop env cfg fuel s) := by
  intro fuel
  induction fuel with
  | zero => intro s h; simpa [crawlLoop] using h
  | succ n ih =>
    intro s h
    match hq : s.queue with
    | [] =>
      rw [crawlLoop, hq]
      exact h
    | (u, d) :: rest =>
      rw [crawlLoop, hq]
      exact ih _ (step s u d rest hq h)

/-- The list of records only ever grows (by appending at the back). -/
theorem crawlLoop_pages_mono (env : Env) (cfg : Config) (fuel : Nat) (s : CrawlState) :
    ∃ t, (crawlLoop env cfg fuel s).crawled_pages = s.crawled_pages ++ t := by
  have h := crawlLoop_induct env cfg
    (fun x => ∃ t, x.crawled_pages = s.crawled_pages ++ t) ?_ fuel s ⟨[], by simp⟩
  · exact h
  · intro x u d rest _ hx
    obtain ⟨t, ht⟩ := hx
    rcases processEntry_spec env cfg { x with queue := rest } u d with ⟨heq, _⟩ | h
    · exact ⟨t, by rw [heq]; exact ht⟩
    · obtain ⟨_, _, o, links, pages, _, _, _, hp, _⟩ := h
      exact ⟨t ++ pages, by rw [hp]; simp [ht]⟩

/-- The attempt trace only ever grows (by appending at the back). -/
theorem crawlLoop_attempts_mono (env : Env) (cfg : Config) (fuel : Nat) (s : CrawlState) :
    ∃ t, (crawlLoop env cfg fuel s).attempts = s.attempts ++ t := by
  have h := crawlLoop_induct env cfg
    (fun x => ∃ t, x.attempts = s.attempts ++ t) ?_ fuel s ⟨[], by simp⟩
  · exact h
  · intro x u d rest _ hx
    obtain ⟨t, ht⟩ := hx
    rcases processEntry_spec env cfg { x with queue := rest } u d with ⟨heq, _⟩ | h
    · exact ⟨t, by rw [heq]; exact ht⟩
    · obtain ⟨_, _, o, links, pages, ha, _⟩ := h
      exact ⟨t ++ [⟨u, d, o⟩], by rw [ha]; simp [ht]⟩

/-- The visited set only ever grows. -/
theorem crawlLoop_visited_mono (env : Env) (cfg : Config) (fuel : Nat) (s : CrawlState) :
    ∀ v ∈ s.visited_urls, v ∈ (crawlLoop env cfg fuel s).visited_urls := by
  have h := crawlLoop_induct env cfg
    (fun x => ∀ v ∈ s.visited_urls, v ∈ x.visited_urls) ?_ fuel s (fun v hv => hv)
  · exact h
  · intro x u d rest _ hx v hv
    rcases processEntry_spec env cfg { x with queue := rest } u d with ⟨heq, _⟩ | h
    · rw [heq]; exact hx v hv
    · obtain ⟨_, _, o, links, pages, _, hvis, _⟩ := h
      rw [hvis]
      split
      · exact List.mem_cons_of_mem _ (hx v hv)
      · exact hx v hv

/-! ## Shared run-level invariants -/

/-- Every fetch attempt of a run respects the hop bound. -/
theorem crawl_attempts_depth_le (env : Env) (cfg : Config) (fuel : Nat) :
    ∀ a ∈ (crawl env cfg fuel).attempts, a.depth ≤ cfg.hops := by
  have key := crawlLoop_induct env cfg
    (fun x => ∀ a ∈ x.attempts, a.depth ≤ cfg.hops) ?_ fuel (initState cfg) (by simp [initState])
  · exact key
  · intro s u d rest _ hInv
    rcases processEntry_spec env cfg { s with queue := rest } u d with ⟨heq, _⟩ | H
    · rw [heq]; exact hInv
    · obtain ⟨_, hd, o, links, pages, ha, _⟩ := H
      rw [ha]
      intro a hmem
      rcases List.mem_append.mp hmem with h | h
      · exact hInv a h
      · rcases List.mem_singleton.mp h with rfl
        exact hd

/-- Every record of a run stems from a successful attempt of the run on
the same URL. -/
theorem crawl_pages_from_attempts (env : Env) (cfg : Config) (fuel : Nat) :
    ∀ r ∈ (crawl env cfg fuel).crawled_pages,
      ∃ a ∈ (crawl env cfg fuel).attempts, a.outcome = Outcome.success ∧ r.url = a.url := by
  have key := crawlLoop_induct env cfg
    (fun x => ∀ r ∈ x.crawled_pages,
      ∃ a ∈ x.attempts, a.outcome = Outcome.success ∧ r.url = a.url)
    ?_ fuel (initState cfg) (by simp [initState])
  · exact key
  · intro s u d rest _ hInv
    rcases processEntry_spec env cfg { s with queue := rest } u d with ⟨heq, _⟩ | H
    · rw [heq]; exact hInv
    · obtain ⟨_, _, o, links, pages, ha, _, _, hp, _, hpages, _, henum, hfail⟩ := H
      rw [ha, hp]
      intro r hmem
      rcases List.mem_append.mp hmem with h | h
      · obtain ⟨a, haMem, hsucc, hurl⟩ := hInv r h
        exact ⟨a, List.mem_append_left _ haMem, hsucc, hurl⟩
      · refine ⟨⟨u, d, o⟩, List.mem_append_right _ (List.mem_singleton_self _), ?_, hpages r h⟩
        by_contra hno
        have : o.isSuccess = false := by
          rcases henum with rfl | ⟨st, rfl⟩ | rfl
          · rfl
          · rfl
          · exact absurd rfl hno
        rcases hfail this with ⟨_, hnil⟩
        rw [hnil] at h
        exact absurd h (List.not_mem_nil r)

/-- A run never has more records than successful attempts. -/
theorem crawl_pages_length_le (env : Env) (cfg : Config) (fuel : Nat) :
    (crawl env cfg fuel).crawled_pages.length ≤
      ((crawl env cfg fuel).attempts.filter (fun a => a.outcome.isSuccess)).length := by
  have key := crawlLoop_induct env cfg
    (fun x => x.crawled_pages.length ≤
      (x.attempts.filter (fun a => a.outcome.isSuccess)).length)
    ?_ fuel (initState cfg) (by simp [initState])
  · exact key
  · intro s u d rest _ hInv
    rcases processEntry_spec env cfg { s with queue := rest } u d with ⟨heq, _⟩ | H
    · rw [heq]; exact hInv
    · obtain ⟨_, _, o, links, pages, ha, _, _, hp, _, _, hlen, henum, hfail⟩ := H
      have ha' : (processEntry env cfg { s with queue := rest } u d).attempts =
          s.attempts ++ [⟨u, d, o⟩] := ha
      have hp' : (processEntry env cfg { s with queue := rest } u d).crawled_pages =
          s.crawled_pages ++ pages := hp
      rw [ha', hp', List.length_append, List.filter_append, List.length_append]
      cases ho : o.isSuccess with
      | false =>
        rcases hfail ho with ⟨_, rfl⟩
        simp only [List.length_nil, Nat.add_zero]
        exact le_trans hInv (Nat.le_add_right _ _)
      | true =>
        have hone : (List.filter (fun a => a.outcome.isSuccess) [Attempt.mk u d o]).length = 1 := by
          simp [ho]
        rw [hone]
        omega

/-! ## C2: visited-set and fetch-dedup discipline -/

/-- C2 (amended): in every crawl run the visited set never admits the same
normalized URL twice, a normalized URL is added exactly once per
status-successful fetch attempt (and only then), and an attempt on a URL
whose normalized form was already visited never happens — so two fetch
attempts can share a normalized form only when the earlier one failed.
(The original claim's stronger reading — that *all* pairs of fetch
attempts have distinct normalized forms — is refuted by
`refetch_after_failure_counterexample`.) -/
theorem visited_set_discipline (env : Env) (cfg : Config) (fuel : Nat) :
    (crawl env cfg fuel).visited_urls.Nodup ∧
    (crawl env cfg fuel).visited_urls.reverse =
      ((crawl env cfg fuel).attempts.filter (fun a => a.outcome.isSuccess)).map
        (fun a => normalize_url a.url) ∧
    (crawl env cfg fuel).attempts.Pairwise
      (fun a b => a.outcome.isSuccess = true → normalize_url a.url ≠ normalize_url b.url) := by
  have key := crawlLoop_induct env cfg (fun x =>
    x.visited_urls.Nodup ∧
    x.visited_urls.reverse =
      (x.attempts.filter (fun a => a.outcome.isSuccess)).map (fun a => normalize_url a.url) ∧
    x.attempts.Pairwise
      (fun a b => a.outcome.isSuccess = true → normalize_url a.url ≠ normalize_url b.url))
    ?_ fuel (initState cfg) (by simp [initState])
  · exact key
  · intro s u d rest _ hInv
    obtain ⟨h1, h2, h3⟩ := hInv
    rcases processEntry_spec env cfg { s with queue := rest } u d with ⟨heq, _⟩ | H
    · rw [heq]; exact ⟨h1, h2, h3⟩
    · obtain ⟨hnv, hd, o, links, pages, ha, hv, _, _, _, _, _, _, _⟩ := H
      have hmem : ∀ a ∈ s.attempts, a.outcome.isSuccess = true →
          normalize_url a.url ∈ s.visited_urls := by
        intro a haMem hsucc
        have : normalize_url a.url ∈ s.visited_urls.reverse := by
          rw [h2]
          exact List.mem_map_of_mem _ (List.mem_filter.mpr ⟨haMem, hsucc⟩)
        simpa using this
      refine ⟨?_, ?_, ?_⟩
      · rw [hv]
        split
        · exact List.nodup_cons.mpr ⟨hnv, h1⟩
        · exact h1
      · rw [hv, ha, List.filter_append, List.map_append]
        cases ho : o.isSuccess with
        | false => simp [ho, h2]
        | true => simp [ho, h2]
      · rw [ha]
        refine List.pairwise_append.mpr ⟨h3, List.pairwise_singleton _ _, ?_⟩
        intro a haMem b hbMem hsucc
        rcases List.mem_singleton.mp hbMem with rfl
        intro hcontra
        exact hnv (hcontra ▸ hmem a haMem hsucc)

/-- C2 counterexample: with the same starter listed twice and a server
answering 500, the run performs two fetch attempts whose URLs have the
same normalized form (a failed fetch is not marked visited and is
re-attempted), refuting "every pair of fetch attempts has distinct
normalized forms". -/
theorem refetch_after_failure_counterexample :
    (crawl envRetry cfgRetry 3).attempts =
      [⟨urlR, 0, Outcome.badStatus 500⟩, ⟨urlR, 0, Outcome.badStatus 500⟩] ∧
    ¬ (crawl envRetry cfgRetry 3).attempts.Pairwise
        (fun a b => normalize_url a.url ≠ normalize_url b.url) ∧
    (crawl envRetry cfgRetry 3).queue = [] := by
  refine ⟨by decide, ?_, by decide⟩
  intro h
  have h2 : (crawl envRetry cfgRetry 3).attempts =
      [⟨urlR, 0, Outcome.badStatus 500⟩, ⟨urlR, 0, Outcome.badStatus 500⟩] := by decide
  rw [h2] at h
  have := List.rel_of_pairwise_cons h (List.mem_singleton_self _)
  exact this rfl

/-! ## C4: domain filtering -/

/-- C4 (amended): the domain filter guards every *discovered* link before
enqueue — every frontier entry at depth ≥ 1 and every fetch attempt at
depth ≥ 1 satisfies `is_allowed` — but starter URLs (the depth-0 entries)
are enqueued and fetched without any domain check, as
`starter_urls_bypass_domain_filter` shows. -/
theorem domain_filter_guards_discovered_links (env : Env) (cfg : Config) (fuel : Nat) :
    (∀ e ∈ (crawl env cfg fuel).queue, 1 ≤ e.2 →
      is_allowed cfg.allowed_domains e.1 = true) ∧
    (∀ a ∈ (crawl env cfg fuel).attempts, 1 ≤ a.depth →
      is_allowed cfg.allowed_domains a.url = true) := by
  have key := crawlLoop_induct env cfg (fun x =>
    (∀ e ∈ x.queue, 1 ≤ e.2 → is_allowed cfg.allowed_domains e.1 = true) ∧
    (∀ a ∈ x.attempts, 1 ≤ a.depth → is_allowed cfg.allowed_domains a.url = true))
    ?_ fuel (initState cfg) ?_
  · exact key
  · intro s u d rest hq hInv
    obtain ⟨hQ, hA⟩ := hInv
    have hHead : 1 ≤ d → is_allowed cfg.allowed_domains u = true := by
      intro h1
      exact hQ (u, d) (hq ▸ List.mem_cons_self _ _) h1
    have hRest : ∀ e ∈ rest, 1 ≤ e.2 → is_allowed cfg.allowed_domains e.1 = true := by
      intro e he
      exact hQ e (hq ▸ List.mem_cons_of_mem _ he)
    rcases processEntry_spec env cfg { s with queue := rest } u d with ⟨heq, _⟩ | H
    · rw [heq]
      exact ⟨hRest, hA⟩
    · obtain ⟨_, _, o, links, pages, ha, _, hqueue, _, hlinks, _⟩ := H
      constructor
      · rw [hqueue]
        intro e he h1
        rcases List.mem_append.mp he with h | h
        · exact hRest e h h1
        · exact (hlinks e h).2.1
      · rw [ha]
        intro a haMem h1
        rcases List.mem_append.mp haMem with h | h
        · exact hA a h h1
        · rcases List.mem_singleton.mp h with rfl
          exact hHead h1
  · constructor
    · intro e he h1
      simp only [initState, List.mem_map] at he
      obtain ⟨url, _, rfl⟩ := he
      omega
    · simp [initState]

/-- C4 counterexample: an out-of-scope starter URL is seeded onto the
frontier and fetched (successfully, even producing a record) although it
fails `is_allowed` — the claim's "no frontier entry is outside the allowed
scope; every URL ever fetched (including starter URLs) satisfies
is_allowed" is false for starters. -/
theorem starter_urls_bypass_domain_filter :
    is_allowed cfgEvil.allowed_domains urlEvil = false ∧
    (initState cfgEvil).queue = [(urlEvil, 0)] ∧
    (crawl envEvil cfgEvil 2).attempts = [⟨urlEvil, 0, Outcome.success⟩] ∧
    (crawl envEvil cfgEvil 2).crawled_pages = [⟨urlEvil, "store/f.html", 2⟩] := by
  decide

/-! ## C5: hop-depth bound -/

/-- C5: no frontier entry deeper than `max_hops` is ever fetched, every
record stems from an attempt within the bound, and with `max_hops = 0`
and a single starter `A` the run makes at most one fetch attempt (on the
normalized starter), yields at most one record, that record is for the
normalized starter, and no link extracted from `A` is ever fetched (every
attempt sits at depth 0). -/
theorem hop_limit_enforced (env : Env) (cfg : Config) (fuel : Nat) (A : String) :
    (∀ a ∈ (crawl env cfg fuel).attempts, a.depth ≤ cfg.hops) ∧
    (∀ r ∈ (crawl env cfg fuel).crawled_pages,
      ∃ a ∈ (crawl env cfg fuel).attempts,
        a.outcome = Outcome.success ∧ r.url = a.url ∧ a.depth ≤ cfg.hops) ∧
    (cfg.hops = 0 → cfg.starter_urls = [A] →
      (crawl env cfg fuel).crawled_pages.length ≤ 1 ∧
      (∀ r ∈ (crawl env cfg fuel).crawled_pages, r.url = normalize_url A) ∧
      (∀ a ∈ (crawl env cfg fuel).attempts, a.depth = 0 ∧ a.url = normalize_url A)) := by
  refine ⟨crawl_attempts_depth_le env cfg fuel, ?_, ?_⟩
  · intro r hr
    obtain ⟨a, haMem, hsucc, hurl⟩ := crawl_pages_from_attempts env cfg fuel r hr
    exact ⟨a, haMem, hsucc, hurl, crawl_attempts_depth_le env cfg fuel a haMem⟩
  · intro h0 hA
    have key := crawlLoop_induct env cfg (fun x =>
      (∀ e ∈ x.queue, e.2 = 0 → e.1 = normalize_url A) ∧
      x.attempts.length + (x.queue.filter (fun e => e.2 == 0)).length ≤ 1 ∧
      (∀ a ∈ x.attempts, a.depth = 0 ∧ a.url = normalize_url A))
      ?_ fuel (initState cfg) ?_
    · have hAtt1 : (crawl env cfg fuel).attempts.length ≤ 1 := by
        show (crawlLoop env cfg fuel (initState cfg)).attempts.length ≤ 1
        have h' := key.2.1
        omega
      refine ⟨?_, ?_, key.2.2⟩
      · calc (crawl env cfg fuel).crawled_pages.length
            ≤ ((crawl env cfg fuel).attempts.filter
                (fun a => a.outcome.isSuccess)).length := crawl_pages_length_le env cfg fuel
          _ ≤ (crawl env cfg fuel).attempts.length := List.length_filter_le _ _
          _ ≤ 1 := hAtt1
      · intro r hr
        obtain ⟨a, haMem, _, hurl⟩ := crawl_pages_from_attempts env cfg fuel r hr
        rw [hurl]
        exact (key.2.2 a haMem).2
    · intro s u d rest hq hInv
      obtain ⟨hQ, hCount, hAtt⟩ := hInv
      have hRestQ : ∀ e ∈ rest, e.2 = 0 → e.1 = normalize_url A := by
        intro e he
        exact hQ e (hq ▸ List.mem_cons_of_mem _ he)
      rcases processEntry_spec env cfg { s with queue := rest } u d with ⟨heq, _⟩ | H
      · rw [heq]
        refine ⟨hRestQ, ?_, hAtt⟩
        have : (rest.filter (fun e => e.2 == 0)).length ≤
            (((u, d) :: rest).filter (fun e => e.2 == 0)).length := by
          rw [List.filter_cons]
          split
          · simp
          · simp
        rw [hq] at hCount
        simp only [CrawlState.attempts] at *
        omega
      · obtain ⟨_, hd, o, links, pages, ha, _, hqueue, _, hlinks, _⟩ := H
        have hd0 : d = 0 := by omega
        have hu : u = normalize_url A := hQ (u, d) (hq ▸ List.mem_cons_self _ _) hd0
        have hHeadCount : (((u, d) :: rest).filter (fun e => e.2 == 0)).length =
            (rest.filter (fun e => e.2 == 0)).length + 1 := by
          rw [List.filter_cons]
          have : ((u, d).2 == 0) = true := by simp [hd0]
          simp [this]
        rw [hq, hHeadCount] at hCount
        have hLinks0 : (links.filter (fun e => e.2 == 0)).length = 0 := by
          rw [List.length_eq_zero, List.filter_eq_nil_iff]
          intro e he
          have := (hlinks e he).1
          simp [this]
        refine ⟨?_, ?_, ?_⟩
        · rw [hqueue]
          intro e he h0e
          rcases List.mem_append.mp he with h | h
          · exact hRestQ e h h0e
          · have := (hlinks e h).1
            omega
        · rw [ha, hqueue, List.length_append, List.filter_append, List.length_append,
            hLinks0]
          simp only [List.length_singleton]
          omega
        · rw [ha]
          intro a haMem
          rcases List.mem_append.mp haMem with h | h
          · exact hAtt a h
          · rcases List.mem_singleton.mp h with rfl
            exact ⟨hd0, hu⟩
    · refine ⟨?_, ?_, by simp [initState]⟩
      · intro e he _
        simp only [initState, hA, List.map_cons, List.map_nil, List.mem_singleton] at he
        rw [he]
      · simp [initState, hA]

/-- C5 witness: a concrete zero-hop single-starter run satisfying the
specialised conclusion. -/
theorem hop_limit_enforced_witness :
    cfgEvil.hops = 0 ∧
    (crawl envEvil cfgEvil 2).crawled_pages.length ≤ 1 ∧
    ∀ a ∈ (crawl envEvil cfgEvil 2).attempts, a.depth = 0 ∧ a.url = normalize_url urlEvil :=
  ⟨rfl, ((hop_limit_enforced envEvil cfgEvil 2 urlEvil).2.2 rfl rfl).1,
    ((hop_limit_enforced envEvil cfgEvil 2 urlEvil).2.2 rfl rfl).2.2⟩

/-! ## C1 / C10: persistence failure behaviour -/

/-- C1 counterexample: `saveOk urlA = false` models the storage write for
the first page raising; the run nevertheless goes on to fetch and record
the second starter and terminates normally (empty queue with fuel to
spare) — the crawl does not abort and the failure does not surface,
because the write error is swallowed by the per-URL `except` handler. -/
theorem persistence_failure_abort_counterexample :
    envPersistFail.saveOk urlA = false ∧
    (crawl envPersistFail cfgAB 3).attempts =
      [⟨urlA, 0, Outcome.success⟩, ⟨urlB, 0, Outcome.success⟩] ∧
    (crawl envPersistFail cfgAB 3).crawled_pages = [⟨urlB, "store/f0.html", 5⟩] ∧
    (crawl envPersistFail cfgAB 3).queue = [] := by
  decide

/-- C1 (amended): a storage write error while persisting a page is caught
by the per-URL handler: the page gets no record and contributes no links,
its URL stays visited, the loop proceeds to the remaining frontier
entries exactly as if only the attempt had been logged, and every record
produced before the failure remains in the output sequence. -/
theorem persistence_failure_is_caught_and_crawl_continues
    (env : Env) (cfg : Config) (s : CrawlState) (u : String) (d : Nat)
    (resp : PageSpec) (c : String)
    (hnv : normalize_url u ∉ s.visited_urls) (hd : d ≤ cfg.hops)
    (hf : env.fetch u = some resp)
    (hst : ¬(resp.status < 200 ∨ 400 ≤ resp.status))
    (hc : resp.content = some c)
    (hs : env.saveOk u = false) :
    (processEntry env cfg s u d).crawled_pages = s.crawled_pages ∧
    (processEntry env cfg s u d).visited_urls = normalize_url u :: s.visited_urls ∧
    (processEntry env cfg s u d).queue = s.queue ∧
    (∀ rest fuel, crawlLoop env cfg (fuel + 1) { s with queue := (u, d) :: rest } =
      crawlLoop env cfg fuel
        { s with queue := rest,
                 visited_urls := normalize_url u :: s.visited_urls,
                 attempts := s.attempts ++ [⟨u, d, Outcome.success⟩] }) ∧
    (∀ rest fuel, ∃ t,
      (crawlLoop env cfg (fuel + 1) { s with queue := (u, d) :: rest }).crawled_pages =
        s.crawled_pages ++ t) := by
  have heq := processEntry_eq_saveFail env cfg s u d resp c hnv hd hf hst hc hs
  have hstep : ∀ rest : List (String × Nat),
      processEntry env cfg { s with queue := rest } u d =
        { s with queue := rest,
                 visited_urls := normalize_url u :: s.visited_urls,
                 attempts := s.attempts ++ [⟨u, d, Outcome.success⟩] } := by
    intro rest
    exact processEntry_eq_saveFail env cfg { s with queue := rest } u d resp c hnv hd hf hst hc hs
  have hloop : ∀ rest fuel, crawlLoop env cfg (fuel + 1) { s with queue := (u, d) :: rest } =
      crawlLoop env cfg fuel
        { s with queue := rest,
                 visited_urls := normalize_url u :: s.visited_urls,
                 attempts := s.attempts ++ [⟨u, d, Outcome.success⟩] } := by
    intro rest fuel
    rw [crawlLoop]
    simp only [hstep rest]
  refine ⟨by rw [heq], by rw [heq], by rw [heq], hloop, ?_⟩
  intro rest fuel
  rw [hloop rest fuel]
  exact crawlLoop_pages_mono env cfg fuel _

/-- C1 witness: the amended statement instantiated in the concrete
persistence-failure scenario. -/
theorem persistence_failure_is_caught_witness :
    envPersistFail.saveOk urlA = false ∧
    (processEntry envPersistFail cfgAB (initState cfgAB) urlA 0).crawled_pages = [] ∧
    (processEntry envPersistFail cfgAB (initState cfgAB) urlA 0).visited_urls = [urlA] := by
  have h := persistence_failure_is_caught_and_crawl_continues envPersistFail cfgAB
    (initState cfgAB) urlA 0 ⟨200, some "hello", some []⟩ "hello"
    (by decide) (by decide) (by decide) (by decide) (by decide) (by decide)
  exact ⟨by decide, by rw [h.1]; rfl, by rw [h.2.1]; rfl⟩

/-- C10: when the write raises for a page whose fetch succeeded, the
page's normalized URL is already in the visited set and stays there for
the rest of the run, no record carrying that URL is ever appended, and no
later fetch attempt targets any URL with the same normalized form — the
page's content is silently absent from the output. -/
theorem save_failure_marks_visited_and_drops_content
    (env : Env) (cfg : Config) (s : CrawlState) (u : String) (d : Nat)
    (resp : PageSpec) (c : String)
    (hnv : normalize_url u ∉ s.visited_urls) (hd : d ≤ cfg.hops)
    (hf : env.fetch u = some resp)
    (hst : ¬(resp.status < 200 ∨ 400 ≤ resp.status))
    (hc : resp.content = some c)
    (hs : env.saveOk u = false) :
    (processEntry env cfg s u d).visited_urls = normalize_url u :: s.visited_urls ∧
    (processEntry env cfg s u d).crawled_pages = s.crawled_pages ∧
    (∀ fuel t, normalize_url u ∈ t.visited_urls →
      (∀ r ∈ t.crawled_pages, r.url ≠ u) →
      normalize_url u ∈ (crawlLoop env cfg fuel t).visited_urls ∧
      (∀ r ∈ (crawlLoop env cfg fuel t).crawled_pages, r.url ≠ u) ∧
      (∀ a ∈ (crawlLoop env cfg fuel t).attempts,
        normalize_url a.url = normalize_url u → a ∈ t.attempts)) := by
  have heq := processEntry_eq_saveFail env cfg s u d resp c hnv hd hf hst hc hs
  refine ⟨by rw [heq], by rw [heq], ?_⟩
  intro fuel t hvis hnorec
  have key := crawlLoop_induct env cfg (fun x =>
    normalize_url u ∈ x.visited_urls ∧
    (∀ r ∈ x.crawled_pages, r.url ≠ u) ∧
    (∀ a ∈ x.attempts, normalize_url a.url = normalize_url u → a ∈ t.attempts))
    ?_ fuel t ⟨hvis, hnorec, fun a haMem _ => haMem⟩
  · exact key
  · intro x v dv rest _ hInv
    obtain ⟨hV, hR, hAtt⟩ := hInv
    rcases processEntry_spec env cfg { x with queue := rest } v dv with ⟨hskip, _⟩ | H
    · rw [hskip]
      exact ⟨hV, hR, hAtt⟩
    · obtain ⟨hnvV, _, o, links, pages, ha, hvv, _, hp, _, hpages, _, _, _⟩ := H
      have ha' : (processEntry env cfg { x with queue := rest } v dv).attempts =
          x.attempts ++ [⟨v, dv, o⟩] := ha
      have hp' : (processEntry env cfg { x with queue := rest } v dv).crawled_pages =
          x.crawled_pages ++ pages := hp
      have hvNe : normalize_url v ≠ normalize_url u := by
        intro hcontra
        exact hnvV (hcontra ▸ hV)
      refine ⟨?_, ?_, ?_⟩
      · rw [hvv]
        split
        · exact List.mem_cons_of_mem _ hV
        · exact hV
      · rw [hp']
        intro r hr
        rcases List.mem_append.mp hr with h | h
        · exact hR r h
        · intro hru
          exact hvNe (by rw [← hpages r h, hru])
      · rw [ha']
        intro a haMem hnorm
        rcases List.mem_append.mp haMem with h | h
        · exact hAtt a h hnorm
        · rcases List.mem_singleton.mp h with rfl
          exact absurd hnorm hvNe

/-- C10 witness: in the concrete persistence-failure scenario the failing
page's URL is visited, stays visited through the rest of the run, and no
record for it ever appears. -/
theorem save_failure_marks_visited_witness :
    envPersistFail.saveOk urlA = false ∧
    (processEntry envPersistFail cfgAB (initState cfgAB) urlA 0).visited_urls = [urlA] ∧
    normalize_url urlA ∈
      (crawlLoop envPersistFail cfgAB 2
        { initState cfgAB with queue := [(urlB, 0)], visited_urls := [urlA] }).visited_urls ∧
    (∀ r ∈ (crawlLoop envPersistFail cfgAB 2
        { initState cfgAB with queue := [(urlB, 0)], visited_urls := [urlA] }).crawled_pages,
      r.url ≠ urlA) := by
  have h := save_failure_marks_visited_and_drops_content envPersistFail cfgAB
    (initState cfgAB) urlA 0 ⟨200, some "hello", some []⟩ "hello"
    (by decide) (by decide) (by decide) (by decide) (by decide) (by decide)
  have h3 := h.2.2 2 { initState cfgAB with queue := [(urlB, 0)], visited_urls := [urlA] }
    (by decide) (by decide)
  exact ⟨by decide, by rw [h.1]; rfl, h3.1, h3.2.1⟩

/-! ## C3: root-URL trailing-slash normalization -/

/-- C3 evaluated at the failing input: the code maps `http://x.com` to
`http://x.com/` but `http://x.com/` to `http://x.com` (its three slashes
miss the `count == 2` root test, so the trailing slash is stripped). The
two root spellings thus normalize *differently* and the slashed one loses
its trailing slash, contradicting the claim (and the code's own comment
"Ensure trailing slash consistency for root URLs"). -/
theorem root_slash_normalization_divergence :
    normalize_url "http://x.com" = "http://x.com/" ∧
    normalize_url "http://x.com/" = "http://x.com" ∧
    normalize_url "http://x.com" ≠ normalize_url "http://x.com/" ∧
    endsWithChar '/' (normalize_url "http://x.com/") = false := by
  decide

/-! ## C6: per-URL fetch failures -/

/-- C6 counterexample: navigation succeeds with status 200 but
`page.content()` raises — a per-URL error after the status check. The URL
*is* marked visited (the claim says a per-URL error leaves it unvisited),
no record is produced, and the run still terminates normally. -/
theorem visited_marked_despite_content_error :
    envContentErr.fetch urlC = some ⟨200, none, some []⟩ ∧
    (crawl envContentErr cfgC 2).visited_urls = [urlC] ∧
    (crawl envContentErr cfgC 2).crawled_pages = [] ∧
    (crawl envContentErr cfgC 2).queue = [] := by
  decide

/-- C6 (amended): a fetch failing at the navigation stage — `goto`
raising, or a response status outside [200, 400) — produces no record,
does not mark the URL visited, and the loop continues with the remaining
frontier entries exactly as if only the failed attempt had been logged.
(A per-URL error *after* the status check also never aborts the
traversal, but then the URL is already visited, as
`visited_marked_despite_content_error` shows.) -/
theorem navigation_failure_is_local
    (env : Env) (cfg : Config) (s : CrawlState) (u : String) (d : Nat)
    (hnv : normalize_url u ∉ s.visited_urls) (hd : d ≤ cfg.hops)
    (hfail : env.fetch u = none ∨
      ∃ resp, env.fetch u = some resp ∧ (resp.status < 200 ∨ 400 ≤ resp.status)) :
    ∃ o : Outcome, o.isSuccess = false ∧
      processEntry env cfg s u d = { s with attempts := s.attempts ++ [⟨u, d, o⟩] } ∧
      (processEntry env cfg s u d).visited_urls = s.visited_urls ∧
      (processEntry env cfg s u d).crawled_pages = s.crawled_pages ∧
      (∀ rest fuel, crawlLoop env cfg (fuel + 1) { s with queue := (u, d) :: rest } =
        crawlLoop env cfg fuel
          { s with queue := rest, attempts := s.attempts ++ [⟨u, d, o⟩] }) := by
  rcases hfail with hf | ⟨resp, hf, hst⟩
  · refine ⟨Outcome.navErr, rfl, processEntry_eq_navErr env cfg s u d hnv hd hf, ?_, ?_, ?_⟩
    · rw [processEntry_eq_navErr env cfg s u d hnv hd hf]
    · rw [processEntry_eq_navErr env cfg s u d hnv hd hf]
    · intro rest fuel
      rw [crawlLoop]
      simp only [processEntry_eq_navErr env cfg { s with queue := rest } u d hnv hd hf]
  · refine ⟨Outcome.badStatus resp.status, rfl,
      processEntry_eq_badStatus env cfg s u d resp hnv hd hf hst, ?_, ?_, ?_⟩
    · rw [processEntry_eq_badStatus env cfg s u d resp hnv hd hf hst]
    · rw [processEntry_eq_badStatus env cfg s u d resp hnv hd hf hst]
    · intro rest fuel
      rw [crawlLoop]
      simp only [processEntry_eq_badStatus env cfg { s with queue := rest } u d resp hnv hd hf hst]

/-- C6 witness: the amended statement at a concrete 404-style failure
(status 500 here): no record, not visited, loop continues. -/
theorem navigation_failure_is_local_witness :
    normalize_url urlR ∉ (initState cfgRetry).visited_urls ∧
    ∃ o : Outcome, o.isSuccess = false ∧
      processEntry envRetry cfgRetry (initState cfgRetry) urlR 0 =
        { initState cfgRetry with attempts := [⟨urlR, 0, o⟩] } := by
  have h := navigation_failure_is_local envRetry cfgRetry (initState cfgRetry) urlR 0
    (by decide) (by decide)
    (Or.inr ⟨⟨500, some "x", some []⟩, by decide, by decide⟩)
  obtain ⟨o, ho, heq, _⟩ := h
  exact ⟨by decide, o, ho, by rw [heq]; rfl⟩

/-! ## C7: extraction errors -/

/-- C7 counterexample: the starter page carries one good anchor followed
by a detached element (`get_attribute` raises). The page's record is
produced, but the link read *before* the error was already appended to the
queue and is later fetched — refuting "zero links from that page are
enqueued". -/
theorem extraction_error_partial_enqueue :
    envExtract.fetch urlP =
      some ⟨200, some "x", some [.got (some urlQ), .getErr]⟩ ∧
    (crawl envExtract cfgExtract 3).attempts =
      [⟨urlP, 0, Outcome.success⟩, ⟨urlQ, 1, Outcome.navErr⟩] ∧
    (crawl envExtract cfgExtract 3).crawled_pages = [⟨urlP, "store/f.html", 1⟩] := by
  decide

/-- C7 (amended): when link extraction errors on a successfully fetched
and saved page, the page's record is still produced; if the enumeration
itself (`element_handles`) raises, zero links are enqueued, and if
`get_attribute` raises on one anchor, exactly the links collected from the
anchors *before* the error are enqueued (those after it are dropped). -/
theorem extraction_error_keeps_record_and_prior_links
    (env : Env) (cfg : Config) (s : CrawlState) (u : String) (d : Nat)
    (resp : PageSpec) (c : String)
    (hnv : normalize_url u ∉ s.visited_urls) (hd : d ≤ cfg.hops)
    (hf : env.fetch u = some resp)
    (hst : ¬(resp.status < 200 ∨ 400 ≤ resp.status))
    (hc : resp.content = some c)
    (hs : env.saveOk u = true) :
    (resp.linksRes = none →
      (processEntry env cfg s u d).crawled_pages = s.crawled_pages ++
        [⟨u, joinPath cfg.storage_folder (env.names s.nameCtr ++ ".html"), c.length⟩] ∧
      (processEntry env cfg s u d).queue = s.queue) ∧
    (∀ pre post, resp.linksRes = some (pre ++ LinkAttr.getErr :: post) →
      LinkAttr.getErr ∉ pre →
      (processEntry env cfg s u d).crawled_pages = s.crawled_pages ++
        [⟨u, joinPath cfg.storage_folder (env.names s.nameCtr ++ ".html"), c.length⟩] ∧
      (processEntry env cfg s u d).queue = s.queue ++
        collectLinks env cfg.allowed_domains u (normalize_url u :: s.visited_urls) d pre) := by
  constructor
  · intro hl
    rw [processEntry_eq_savedNoLinks env cfg s u d resp c hnv hd hf hst hc hs hl]
    exact ⟨rfl, rfl⟩
  · intro pre post hl hpre
    rw [processEntry_eq_savedLinks env cfg s u d resp c _ hnv hd hf hst hc hs hl]
    refine ⟨rfl, ?_⟩
    rw [collectLinks_stops_at_getErr env cfg.allowed_domains u
      (normalize_url u :: s.visited_urls) d pre post hpre]

/-- C7 witness: the amended statement at the concrete extraction-error
scenario — the record exists and exactly the one pre-error link is
appended to the frontier. -/
theorem extraction_error_keeps_record_witness :
    LinkAttr.getErr ∉ [LinkAttr.got (some urlQ)] ∧
    (processEntry envExtract cfgExtract (initState cfgExtract) urlP 0).crawled_pages =
      [⟨urlP, "store/f.html", 1⟩] ∧
    (processEntry envExtract cfgExtract (initState cfgExtract) urlP 0).queue =
      [(urlP, 0), (urlQ, 1)] := by
  have h := extraction_error_keeps_record_and_prior_links envExtract cfgExtract
    (initState cfgExtract) urlP 0 ⟨200, some "x", some [.got (some urlQ), .getErr]⟩ "x"
    (by decide) (by decide) (by decide) (by decide) (by decide) (by decide)
  have h2 := h.2 [LinkAttr.got (some urlQ)] [] (by decide) (by decide)
  refine ⟨by decide, ?_, ?_⟩
  · rw [h2.1]; decide
  · rw [h2.2]; decide

/-! ## C8: the domain filter is a plain suffix test -/

/-- C8: `is_allowed` holds exactly when the URL's host ends (as a plain
string suffix, no label boundary) with some entry of the allow-list; in
particular subdomains pass under their parent domain's entry, a host
sharing no suffix fails — and so does the suffix-only artefact that
`evilexample.com` passes under entry `example.com`. -/
theorem is_allowed_iff_host_suffix (allowed_domains : List String) (url : String) :
    (is_allowed allowed_domains url = true ↔
      ∃ d ∈ allowed_domains, d.data <:+ (netloc url).data) ∧
    is_allowed ["example.com"] "https://blog.example.com/p" = true ∧
    is_allowed ["example.com"] "https://other.org/p" = false ∧
    is_allowed ["example.com"] "https://evilexample.com/p" = true := by
  refine ⟨?_, by decide, by decide, by decide⟩
  simp [is_allowed, endswith, List.any_eq_true, List.isSuffixOf_iff_suffix]

/-! ## C9: what a PageRecord carries -/

/-- The recursion core of `String.utf8ByteSize` counts one byte per
ASCII character. -/
theorem utf8ByteSize_go_ascii :
    ∀ l : List Char, (∀ ch ∈ l, ch.toNat ≤ 127) →
      String.utf8ByteSize.go l = l.length := by
  intro l
  induction l with
  | nil => intro _; rfl
  | cons c cs ih =>
    intro h
    have hc : c.toNat ≤ 127 := h c (List.mem_cons_self _ _)
    have hcs := ih (fun ch hch => h ch (List.mem_cons_of_mem _ hch))
    have hsize : c.utf8Size = 1 := by
      have hle : c.val ≤ UInt32.ofNatCore 0x7F (by decide) := by
        rw [UInt32.le_def, BitVec.le_def]
        exact hc
      unfold Char.utf8Size
      rw [if_pos hle]
    show String.utf8ByteSize.go cs + c.utf8Size = cs.length + 1
    rw [hcs, hsize]

/-- An all-ASCII string has as many UTF-8 bytes as characters. -/
theorem utf8ByteSize_of_ascii (content : String)
    (h : ∀ ch ∈ content.data, ch.toNat ≤ 127) :
    content.utf8ByteSize = content.length := by
  cases content with
  | mk data => exact utf8ByteSize_go_ascii data h

/-- C9 counterexample: saving the one-character content `"é"` produces a
record with `size = 1` (Python `len(content)` counts characters), while
the bytes actually written with UTF-8 encoding number 2 — the recorded
size is *not* the byte length of the saved content for non-ASCII
contents. -/
theorem record_size_is_chars_not_bytes :
    save_page_content envStore cfgStore (initState cfgStore) "é" "http://x.com/a" =
      some { initState cfgStore with
             crawled_pages := [⟨"http://x.com/a", "store/f.html", 1⟩], nameCtr := 1 } ∧
    String.utf8ByteSize "é" = 2 ∧
    (1 : Nat) ≠ 2 := by
  decide

/-- C9 (amended): a successful save appends exactly one record carrying
the source URL, the path of the file just written (storage folder joined
with the fresh uuid-based name), and a size equal to the *character*
count of the content — which coincides with the UTF-8 byte length only
when the content is all-ASCII. -/
theorem saved_record_fields (env : Env) (cfg : Config) (s : CrawlState)
    (content url : String) (hs : env.saveOk url = true) :
    save_page_content env cfg s content url =
      some { s with
             crawled_pages := s.crawled_pages ++
               [⟨url, joinPath cfg.storage_folder (env.names s.nameCtr ++ ".html"),
                 content.length⟩],
             nameCtr := s.nameCtr + 1 } ∧
    ((∀ ch ∈ content.data, ch.toNat ≤ 127) →
      content.length = content.utf8ByteSize) := by
  constructor
  · simp [save_page_content, hs]
  · intro h
    exact (utf8ByteSize_of_ascii content h).symm

/-- C9 witness: the amended statement at a concrete ASCII save. -/
theorem saved_record_fields_witness :
    envStore.saveOk "http://x.com/a" = true ∧
    save_page_content envStore cfgStore (initState cfgStore) "hello" "http://x.com/a" =
      some { initState cfgStore with
             crawled_pages := [⟨"http://x.com/a", "store/f.html", 5⟩], nameCtr := 1 } ∧
    ("hello" : String).length = ("hello" : String).utf8ByteSize := by
  have h := saved_record_fields envStore cfgStore (initState cfgStore) "hello"
    "http://x.com/a" (by decide)
  refine ⟨by decide, ?_, h.2 (by decide)⟩
  rw [h.1]
  rfl

example : normalize_url "http://x.com" = "http://x.com/" := by decide
example : normalize_url "http://x.com/" = "http://x.com" := by decide
example : normalize_url "http://x.com/a/" = "http://x.com/a" := by decide
example : normalize_url "http://x.com/a#sec" = "http://x.com/a" := by decide
example : netloc "https://blog.example.com/p?q=1" = "blog.example.com" := by decide
example : is_allowed ["example.com"] "https://blog.example.com/p" = true := by decide
example : is_allowed ["example.com"] "https://evil.com/p" = false := by decide
example : is_allowed ["example.com"] "https://evilexample.com/p" = true := by decide
example : joinPath "store" "ab.html" = "store/ab.html" := by decide

end RetrievalCrawler
